import Mathlib

/-!
Verification of the statistical design-calculation engine validated by the
zetyra-validation suite.  The reference implementations embedded in the test
scripts (power prior, MAP-prior heterogeneity, alpha-spending functions,
Zhou & Ji sequential boundaries, Clopper-Pearson helpers, schema checker)
are embedded shallowly below and the spec's testable properties are settled
against them.
-/

open MeasureTheory Filter Set Topology

/-! ### Standard normal distribution

The test scripts use `scipy.stats.norm.cdf` / `norm.ppf`.  We embed the
standard normal CDF as the normalized Gaussian integral and its quantile
function (`ppf`) as the inverse obtained from the intermediate value theorem.
-/

/-- The standard normal density up to normalization: `exp (-t²/2)`. -/
noncomputable def gaussKernel (t : ℝ) : ℝ := Real.exp (-(1 / 2) * t ^ 2)

/-- `scipy.stats.norm.cdf`: the standard normal cumulative distribution
function `Φ(x) = (∫_{-∞}^x exp (-t²/2) dt) / √(2π)`. -/
noncomputable def stdNormalCdf (x : ℝ) : ℝ :=
  (∫ t in Iic x, gaussKernel t) / Real.sqrt (2 * Real.pi)

lemma gaussKernel_pos (t : ℝ) : 0 < gaussKernel t := Real.exp_pos _

lemma integrable_gaussKernel : Integrable gaussKernel :=
  integrable_exp_neg_mul_sq (show (0:ℝ) < 1 / 2 by norm_num)

lemma integral_gaussKernel : ∫ t, gaussKernel t = Real.sqrt (2 * Real.pi) := by
  have h := integral_gaussian (1 / 2)
  have h2 : Real.pi / (1 / 2) = 2 * Real.pi := by ring
  rw [h2] at h
  exact h

lemma integral_gaussKernel_Ioi :
    ∫ t in Ioi (0:ℝ), gaussKernel t = Real.sqrt (2 * Real.pi) / 2 := by
  have h := integral_gaussian_Ioi (1 / 2)
  have h2 : Real.pi / (1 / 2) = 2 * Real.pi := by ring
  rw [h2] at h
  exact h

lemma sqrt_two_pi_pos : 0 < Real.sqrt (2 * Real.pi) :=
  Real.sqrt_pos.2 (by positivity)

lemma integral_gaussKernel_Iic_zero :
    ∫ t in Iic (0:ℝ), gaussKernel t = Real.sqrt (2 * Real.pi) / 2 := by
  have hsplit := intervalIntegral.integral_Iic_add_Ioi (b := (0:ℝ)) (f := gaussKernel)
    (μ := volume) integrable_gaussKernel.integrableOn integrable_gaussKernel.integrableOn
  rw [integral_gaussKernel, integral_gaussKernel_Ioi] at hsplit
  linarith

lemma stdNormalCdf_zero : stdNormalCdf 0 = 1 / 2 := by
  rw [stdNormalCdf, integral_gaussKernel_Iic_zero]
  field_simp
  ring

lemma integral_gaussKernel_Iic_mono {x y : ℝ} (hxy : x ≤ y) :
    (∫ t in Iic x, gaussKernel t) ≤ ∫ t in Iic y, gaussKernel t :=
  setIntegral_mono_set integrable_gaussKernel.integrableOn
    (Eventually.of_forall fun t => (gaussKernel_pos t).le)
    ((Iic_subset_Iic.2 hxy).eventuallyLE)

lemma stdNormalCdf_mono : Monotone stdNormalCdf := fun x y hxy =>
  (div_le_div_right sqrt_two_pi_pos).2 (integral_gaussKernel_Iic_mono hxy)

lemma stdNormalCdf_strictMono : StrictMono stdNormalCdf := by
  intro x y hxy
  have hIic := intervalIntegral.integral_Iic_sub_Iic (μ := volume) (f := gaussKernel)
    (a := x) (b := y) integrable_gaussKernel.integrableOn integrable_gaussKernel.integrableOn
  have hioc : (∫ t in x..y, gaussKernel t) = ∫ t in Ioc x y, gaussKernel t :=
    intervalIntegral.integral_of_le hxy.le
  have hpos : 0 < ∫ t in Ioc x y, gaussKernel t := by
    rw [setIntegral_pos_iff_support_of_nonneg_ae
      (Eventually.of_forall fun t => (gaussKernel_pos t).le)
      integrable_gaussKernel.integrableOn]
    have hsupp : Function.support gaussKernel = univ := by
      ext t; simp [Function.support, (gaussKernel_pos t).ne']
    rw [hsupp, univ_inter]
    simpa [Real.volume_Ioc] using hxy
  have hlt : (∫ t in Iic x, gaussKernel t) < ∫ t in Iic y, gaussKernel t := by
    rw [hioc] at hIic; linarith
  exact (div_lt_div_right sqrt_two_pi_pos).2 hlt

lemma stdNormalCdf_nonneg (x : ℝ) : 0 ≤ stdNormalCdf x := by
  apply div_nonneg _ sqrt_two_pi_pos.le
  exact setIntegral_nonneg measurableSet_Iic fun t _ => (gaussKernel_pos t).le

lemma stdNormalCdf_le_one (x : ℝ) : stdNormalCdf x ≤ 1 := by
  rw [stdNormalCdf, div_le_one sqrt_two_pi_pos]
  calc (∫ t in Iic x, gaussKernel t) ≤ ∫ t, gaussKernel t :=
        setIntegral_le_integral integrable_gaussKernel
          (Eventually.of_forall fun t => (gaussKernel_pos t).le)
    _ = Real.sqrt (2 * Real.pi) := integral_gaussKernel

lemma integral_gaussKernel_Iic (x : ℝ) :
    ∫ t in Iic x, gaussKernel t =
      (∫ t in Iic (0:ℝ), gaussKernel t) + ∫ t in (0:ℝ)..x, gaussKernel t := by
  have h := intervalIntegral.integral_Iic_sub_Iic (μ := volume) (f := gaussKernel)
    (a := (0:ℝ)) (b := x) integrable_gaussKernel.integrableOn
    integrable_gaussKernel.integrableOn
  linarith

lemma stdNormalCdf_continuous : Continuous stdNormalCdf := by
  have hprim : Continuous fun x => ∫ t in (0:ℝ)..x, gaussKernel t :=
    integrable_gaussKernel.continuous_primitive 0
  have hsum : Continuous fun x =>
      (∫ t in Iic (0:ℝ), gaussKernel t) + ∫ t in (0:ℝ)..x, gaussKernel t :=
    continuous_const.add hprim
  have hIic : Continuous fun x => ∫ t in Iic x, gaussKernel t :=
    hsum.congr fun x => (integral_gaussKernel_Iic x).symm
  exact hIic.div_const _

lemma stdNormalCdf_tendsto_one : Tendsto stdNormalCdf atTop (𝓝 1) := by
  have h1 : Tendsto (fun x => ∫ t in (0:ℝ)..x, gaussKernel t) atTop
      (𝓝 (∫ t in Ioi (0:ℝ), gaussKernel t)) :=
    intervalIntegral_tendsto_integral_Ioi 0 integrable_gaussKernel.integrableOn tendsto_id
  have h2 : Tendsto (fun x =>
      (∫ t in Iic (0:ℝ), gaussKernel t) + ∫ t in (0:ℝ)..x, gaussKernel t) atTop
      (𝓝 ((∫ t in Iic (0:ℝ), gaussKernel t) + ∫ t in Ioi (0:ℝ), gaussKernel t)) :=
    tendsto_const_nhds.add h1
  have hsum : (∫ t in Iic (0:ℝ), gaussKernel t) + ∫ t in Ioi (0:ℝ), gaussKernel t =
      Real.sqrt (2 * Real.pi) := by
    rw [integral_gaussKernel_Iic_zero, integral_gaussKernel_Ioi]; ring
  rw [hsum] at h2
  have h3 : Tendsto (fun x => ∫ t in Iic x, gaussKernel t) atTop
      (𝓝 (Real.sqrt (2 * Real.pi))) :=
    h2.congr fun x => (integral_gaussKernel_Iic x).symm
  have h4 := h3.div_const (Real.sqrt (2 * Real.pi))
  rw [div_self sqrt_two_pi_pos.ne'] at h4
  exact h4

lemma stdNormalCdf_tendsto_zero : Tendsto stdNormalCdf atBot (𝓝 0) := by
  have h1 : Tendsto (fun x => ∫ t in x..(0:ℝ), gaussKernel t) atBot
      (𝓝 (∫ t in Iic (0:ℝ), gaussKernel t)) :=
    intervalIntegral_tendsto_integral_Iic 0 integrable_gaussKernel.integrableOn tendsto_id
  have h2 : Tendsto (fun x =>
      (∫ t in Iic (0:ℝ), gaussKernel t) - ∫ t in x..(0:ℝ), gaussKernel t) atBot
      (𝓝 0) := by
    have := (tendsto_const_nhds
      (x := ∫ t in Iic (0:ℝ), gaussKernel t) (f := atBot)).sub h1
    rwa [sub_self] at this
  have h3 : Tendsto (fun x => ∫ t in Iic x, gaussKernel t) atBot (𝓝 0) := by
    refine h2.congr fun x => ?_
    have h := intervalIntegral.integral_Iic_sub_Iic (μ := volume) (f := gaussKernel)
      (a := x) (b := (0:ℝ)) integrable_gaussKernel.integrableOn
      integrable_gaussKernel.integrableOn
    linarith
  have h4 := h3.div_const (Real.sqrt (2 * Real.pi))
  rwa [zero_div] at h4

lemma stdNormalCdf_surj {p : ℝ} (hp0 : 0 < p) (hp1 : p < 1) :
    ∃ x, stdNormalCdf x = p := by
  obtain ⟨a, ha⟩ := (stdNormalCdf_tendsto_zero.eventually_lt_const hp0).exists
  obtain ⟨b, hb⟩ := (stdNormalCdf_tendsto_one.eventually_const_lt hp1).exists
  have hab : a ≤ b := by
    by_contra hba
    exact absurd (stdNormalCdf_mono (le_of_not_le hba)) (by linarith)
  obtain ⟨x, _, hx⟩ :=
    intermediate_value_Icc hab stdNormalCdf_continuous.continuousOn ⟨ha.le, hb.le⟩
  exact ⟨x, hx⟩

/-- `scipy.stats.norm.ppf`: the standard normal quantile function, the
inverse of `stdNormalCdf` on `(0,1)`. -/
noncomputable def stdNormalPpf (p : ℝ) : ℝ :=
  Classical.epsilon fun x => stdNormalCdf x = p

lemma stdNormalCdf_ppf {p : ℝ} (hp0 : 0 < p) (hp1 : p < 1) :
    stdNormalCdf (stdNormalPpf p) = p :=
  Classical.epsilon_spec (stdNormalCdf_surj hp0 hp1)

lemma stdNormalPpf_half : stdNormalPpf (1 / 2) = 0 := by
  have h : stdNormalCdf (stdNormalPpf (1 / 2)) = stdNormalCdf 0 := by
    rw [stdNormalCdf_ppf (by norm_num) (by norm_num), stdNormalCdf_zero]
  exact stdNormalCdf_strictMono.injective h

lemma stdNormalPpf_nonneg {p : ℝ} (hp : 1 / 2 ≤ p) (hp1 : p < 1) :
    0 ≤ stdNormalPpf p := by
  by_contra hneg
  push_neg at hneg
  have h := stdNormalCdf_strictMono hneg
  rw [stdNormalCdf_ppf (by linarith) hp1, stdNormalCdf_zero] at h
  linarith

lemma stdNormalPpf_neg {p : ℝ} (hp0 : 0 < p) (hp : p < 1 / 2) :
    stdNormalPpf p < 0 := by
  by_contra hpos
  push_neg at hpos
  have h := stdNormalCdf_mono hpos
  rw [stdNormalCdf_ppf hp0 (by linarith), stdNormalCdf_zero] at h
  linarith

lemma stdNormalPpf_lt_ppf {p q : ℝ} (hp0 : 0 < p) (hpq : p < q) (hq1 : q < 1) :
    stdNormalPpf p < stdNormalPpf q := by
  by_contra hle
  push_neg at hle
  have h := stdNormalCdf_mono hle
  rw [stdNormalCdf_ppf hp0 (hpq.trans hq1), stdNormalCdf_ppf (hp0.trans hpq) hq1] at h
  linarith

/-! ### Alpha-spending functions (src/validation/validate_gsd.py) -/

/-- `reference_obrien_fleming_spending(t, alpha)`: O'Brien-Fleming alpha
spending, `α*(t) = 2 - 2Φ(Φ⁻¹(1-α)/√t)`, clamped to `0` for `t ≤ 0` and to
`alpha` for `t ≥ 1`. -/
noncomputable def reference_obrien_fleming_spending (t alpha : ℝ) : ℝ :=
  if t ≤ 0 then 0
  else if 1 ≤ t then alpha
  else 2 * (1 - stdNormalCdf (stdNormalPpf (1 - alpha) / Real.sqrt t))

/-- `reference_pocock_spending(t, alpha)`: Pocock alpha spending,
`α*(t) = α·ln(1+(e-1)t)`, clamped to `0` for `t ≤ 0` and to `alpha` for
`t ≥ 1`. -/
noncomputable def reference_pocock_spending (t alpha : ℝ) : ℝ :=
  if t ≤ 0 then 0
  else if 1 ≤ t then alpha
  else alpha * Real.log (1 + (Real.exp 1 - 1) * t)

/-! ### Zhou & Ji (2024) sequential boundary
(src/bayesian/test_bayesian_sequential.py, src/bayesian/test_offline_references.py) -/

/-- The Zhou & Ji (2024) boundary formula as computed in
`test_offline_references.test_zhou_ji_boundary` (and inside
`reference_boundary_continuous` before its final 4-decimal display rounding):
`c_k = Φ⁻¹(γ)·√(1 + σ²/(n_k·ν²)) - μ·√(σ²)/(√n_k·ν²)`. -/
noncomputable def zhou_ji_boundary
    (prior_mean prior_variance data_variance n_k threshold : ℝ) : ℝ :=
  stdNormalPpf threshold * Real.sqrt (1 + data_variance / (n_k * prior_variance))
    - prior_mean * Real.sqrt data_variance / (Real.sqrt n_k * prior_variance)

/-- `numpy.round` / Python `round` ties-to-even integer rounding. -/
def round_half_even {α : Type} [LinearOrderedField α] [FloorRing α] (x : α) : ℤ :=
  if Int.fract x < 1 / 2 then ⌊x⌋
  else if 1 / 2 < Int.fract x then ⌊x⌋ + 1
  else if 2 ∣ ⌊x⌋ then ⌊x⌋ else ⌊x⌋ + 1

/-- `reference_boundary_continuous(prior_mean, prior_variance, data_variance,
n_k, threshold)`: the Zhou & Ji boundary, rounded to 4 decimals
(`round(c, 4)`) as in `test_bayesian_sequential.py`. -/
noncomputable def reference_boundary_continuous
    (prior_mean prior_variance data_variance n_k threshold : ℝ) : ℝ :=
  (round_half_even
    (zhou_ji_boundary prior_mean prior_variance data_variance n_k threshold
      * 10 ^ 4) : ℝ) / 10 ^ 4

lemma round_half_even_abs_sub (x : ℝ) : |(round_half_even x : ℝ) - x| ≤ 1 / 2 := by
  have hfr0 : 0 ≤ Int.fract x := Int.fract_nonneg x
  have hfr1 : Int.fract x < 1 := Int.fract_lt_one x
  have hfl : (⌊x⌋ : ℝ) = x - Int.fract x := by
    rw [Int.self_sub_fract]
  rw [round_half_even]
  split_ifs with h1 h2 h3 <;>
    simp only [Int.cast_add, Int.cast_one, hfl] <;>
    rw [abs_le] <;> constructor <;> linarith

/-! ### Power prior (src/bayesian/test_bayesian_borrowing.py) -/

/-- Result record of `reference_power_prior`. -/
structure PowerPriorResult where
  alpha : ℝ
  beta : ℝ
  ess_total : ℝ
  ess_historical : ℝ
  mean : ℝ

/-- `reference_power_prior(events, n, discount, base_alpha, base_beta)`:
power prior `Beta(α₀ + δ·events, β₀ + δ·(n-events))` with
`ess_historical = δ·n`. -/
noncomputable def reference_power_prior
    (events n discount base_alpha base_beta : ℝ) : PowerPriorResult :=
  let alpha := base_alpha + discount * events
  let beta := base_beta + discount * (n - events)
  let ess := alpha + beta
  { alpha := alpha
    beta := beta
    ess_total := ess
    ess_historical := discount * n
    mean := alpha / ess }

/-! ### MAP-prior heterogeneity (src/bayesian/test_bayesian_borrowing.py) -/

/-- A historical study record `{"n_events": e, "n_total": n}`. -/
structure Study where
  n_events : ℕ
  n_total : ℕ
deriving DecidableEq

/-- Result record of `reference_heterogeneity`. -/
structure HeterogeneityResult where
  Q : ℚ
  i_squared : ℚ
  pooled_rate : ℚ
deriving DecidableEq

/-- `reference_heterogeneity(studies)`: Cochran's Q, I², and the
fixed-effect pooled rate, with the `0.25/n` fallback variance when a rate is
exactly 0 or 1 and zero weight on a non-positive variance. -/
def reference_heterogeneity (studies : List Study) : HeterogeneityResult :=
  let rates := studies.map fun s => (s.n_events : ℚ) / s.n_total
  let ns := studies.map fun s => (s.n_total : ℚ)
  let variances := (rates.zip ns).map fun rn =>
    if 0 < rn.1 ∧ rn.1 < 1 then rn.1 * (1 - rn.1) / rn.2 else 1 / 4 / rn.2
  let weights := variances.map fun v => if 0 < v then 1 / v else 0
  let total_w := weights.sum
  let pooled :=
    if 0 < total_w then ((weights.zip rates).map fun wr => wr.1 * wr.2).sum / total_w
    else rates.sum / rates.length
  let q := ((weights.zip rates).map fun wr => wr.1 * (wr.2 - pooled) ^ 2).sum
  let df : ℚ := studies.length - 1
  { Q := q
    i_squared := if 0 < q then max 0 ((q - df) / q * 100) else 0
    pooled_rate := pooled }

/-! ### Engine error taxonomy (§7 of the spec) -/

/-- Error taxonomy of the design engine (§7). -/
inductive DesignError where
  | invalidInput : DesignError
  | undefinedEffect : DesignError
  | insufficientData : DesignError
deriving DecidableEq

/-- Modelled from the spec: the engine's Schoenfeld survival-events
computation (the `/sample-size/survival` endpoint), whose implementation is
not part of the validation suite's sources — the suite holds only the
reference formula `reference_sample_size_survival` and the HR=1 guard test.
Per §4.1: `events = ((z_α + z_β)/ln HR)² · (1+r)²/r` with two-sided `z_α`,
failing with `UndefinedEffect` when `HR = 1` instead of returning a number. -/
noncomputable def schoenfeld_survival_events
    (hazard_ratio alpha power allocation_r : ℝ) : Except DesignError ℝ :=
  if hazard_ratio = 1 then .error .undefinedEffect
  else
    .ok (((stdNormalPpf (1 - alpha / 2) + stdNormalPpf power) /
        Real.log hazard_ratio) ^ 2 * (1 + allocation_r) ^ 2 / allocation_r)

/-! ### Monte-Carlo sample-size search (§4.3 of the spec) -/

/-- Modelled from the spec: the pseudo-random draw of the engine's
Monte-Carlo search, "derived deterministically from
`(seed, n, simulation index)`" (§4.3); the concrete generator is internal to
the engine, so a fixed congruential hash into `[0,1)` stands for it. -/
def mcDraw (seed n i : ℕ) : ℚ :=
  (((seed * 2654435761 + n * 40503 + i * 9973) % 65536 : ℕ) : ℚ) / 65536

/-- Simulation outcome record per candidate `n` (§3 / §4.3). -/
structure MCResult where
  recommended_n : ℕ
  type1_error : ℚ
  power : ℚ
  constraints_met : Bool
deriving DecidableEq

/-- Modelled from the spec: one simulated trial of the Monte-Carlo search —
draw `n` subject outcomes from the trial rate using the deterministic
stream, then apply the design's decision rule to the success count. -/
def mcSimulateTrial (dec_rule : ℕ → ℕ → Bool) (rate : ℚ) (seed n i : ℕ) : Bool :=
  dec_rule ((List.range n).countP fun j => mcDraw seed n (i * n + j) < rate) n

/-- Modelled from the spec: the fraction of `n_simulations` simulated trials
declaring success at candidate `n` (§4.3 steps 1-2). -/
def mcEstimateRate (dec_rule : ℕ → ℕ → Bool) (rate : ℚ) (seed n nsims : ℕ) : ℚ :=
  (((List.range nsims).countP fun i => mcSimulateTrial dec_rule rate seed n i : ℕ) : ℚ)
    / nsims

/-- Modelled from the spec: the ascending candidate grid
`n_min, n_min+n_step, …, ≤ n_max` of the Monte-Carlo search. -/
def mcGrid (n_min n_max n_step : ℕ) : List ℕ :=
  ((List.range ((n_max - n_min) / n_step + 1)).map fun k => n_min + k * n_step).filter
    fun n => n ≤ n_max

/-- Modelled from the spec: scan the grid in ascending order and stop at the
first `n` whose estimated type-I error and power meet the targets (§4.3
step 3). -/
def mcScan (eval : ℕ → ℚ × ℚ) (target_type1 target_power : ℚ) :
    List ℕ → Option (ℕ × ℚ × ℚ)
  | [] => none
  | n :: rest =>
    let est := eval n
    if est.1 ≤ target_type1 ∧ target_power ≤ est.2 then some (n, est)
    else mcScan eval target_type1 target_power rest

/-- Modelled from the spec: the engine's Monte-Carlo sample-size search
(§4.3), which is not part of the validation suite's sources (the suite only
calls it over HTTP in `test_bayesian_sample_size.py`).  A supplied `seed`
keys every draw; omitting it falls back to process entropy, modelled as the
explicit `entropy` argument. -/
def mc_sample_size_search (dec_rule : ℕ → ℕ → Bool)
    (null_rate alternative_rate target_type1 target_power : ℚ)
    (n_min n_max n_step n_simulations : ℕ) (seed : Option ℕ) (entropy : ℕ) :
    MCResult :=
  let s := seed.getD entropy
  let eval := fun n =>
    (mcEstimateRate dec_rule null_rate s n n_simulations,
     mcEstimateRate dec_rule alternative_rate s n n_simulations)
  match mcScan eval target_type1 target_power (mcGrid n_min n_max n_step) with
  | some (n, est) =>
    { recommended_n := n, type1_error := est.1, power := est.2, constraints_met := true }
  | none =>
    { recommended_n := n_max
      type1_error := (eval n_max).1
      power := (eval n_max).2
      constraints_met := false }

/-! ### Schema contract checker (src/common/assertions.py) -/

/-- The numeric-bounds fragment of `assert_schema` for one field: tuples are
`(lo, hi)` or `(lo, hi, strict_lower)`; `strict_lower=True` (the default)
rejects `val <= lo`, `strict_lower=False` rejects `val < lo`, and `val > hi`
is rejected whenever `hi` is not `None`. -/
def check_bound (key : String) (val : ℚ) (lo : Option ℚ) (hi : Option ℚ)
    (strict : Bool) : List String :=
  (match lo with
   | none => []
   | some l =>
     if strict = true ∧ val ≤ l then [key ++ "=" ++ toString val ++ " <= " ++ toString l]
     else if strict = false ∧ val < l then
       [key ++ "=" ++ toString val ++ " < " ++ toString l]
     else []) ++
  (match hi with
   | none => []
   | some h => if h < val then [key ++ "=" ++ toString val ++ " > " ++ toString h] else [])

/-- The bounds-checking loop of `assert_schema`: for every field of the
contract's `bounds` table that is present in the response, append that
field's violation messages. -/
def assert_schema_bounds (response : List (String × ℚ))
    (bounds : List (String × Option ℚ × Option ℚ × Bool)) : List String :=
  bounds.foldr
    (fun b acc =>
      match response.lookup b.1 with
      | none => acc
      | some v => check_bound b.1 v b.2.1 b.2.2.1 b.2.2.2 ++ acc)
    []

/-! ### Clopper-Pearson helpers (src/common/assertions.py) -/

/-- `binomial_ci(k, n, confidence)`: Clopper-Pearson exact interval,
parameterized by the external `scipy.stats.beta.ppf` collaborator:
`lower = BetaPPF(α/2; k, n-k+1)` (0 when `k=0`),
`upper = BetaPPF(1-α/2; k+1, n-k)` (1 when `k=n`), `α = 1-confidence`. -/
def binomial_ci (betaPpf : ℚ → ℤ → ℤ → ℚ) (k n : ℤ) (confidence : ℚ) : ℚ × ℚ :=
  let alpha := 1 - confidence
  (if k = 0 then 0 else betaPpf (alpha / 2) k (n - k + 1),
   if k = n then 1 else betaPpf (1 - alpha / 2) (k + 1) (n - k))

/-- The clamped success count `k = max(0, min(round(rate*n_sims), n_sims))`
shared by `mc_rate_within`, `mc_rate_upper_bound` and `mc_rate_lower_bound`. -/
def clamped_count (observed_rate : ℚ) (n_sims : ℕ) : ℤ :=
  max 0 (min (round_half_even (observed_rate * n_sims)) (n_sims : ℤ))

/-- `mc_rate_within(observed_rate, n_sims, target, tolerance, confidence)`. -/
def mc_rate_within (betaPpf : ℚ → ℤ → ℤ → ℚ) (observed_rate : ℚ) (n_sims : ℕ)
    (target tolerance confidence : ℚ) : Bool :=
  let lohi := binomial_ci betaPpf (clamped_count observed_rate n_sims) n_sims confidence
  decide (lohi.1 - tolerance ≤ target ∧ target ≤ lohi.2 + tolerance)

/-- `mc_rate_upper_bound(observed_rate, n_sims, confidence)`. -/
def mc_rate_upper_bound (betaPpf : ℚ → ℤ → ℤ → ℚ) (observed_rate : ℚ)
    (n_sims : ℕ) (confidence : ℚ) : ℚ :=
  (binomial_ci betaPpf (clamped_count observed_rate n_sims) n_sims confidence).2

/-- `mc_rate_lower_bound(observed_rate, n_sims, confidence)`. -/
def mc_rate_lower_bound (betaPpf : ℚ → ℤ → ℤ → ℚ) (observed_rate : ℚ)
    (n_sims : ℕ) (confidence : ℚ) : ℚ :=
  (binomial_ci betaPpf (clamped_count observed_rate n_sims) n_sims confidence).1

/-! ### Claim theorems -/

/-- C1: for every `events`, `n`, `discount` with `0 ≤ events ≤ n` and
`0 ≤ discount ≤ 1`, and every base prior, the power-prior computation
returns `alpha = base_alpha + discount*events`,
`beta = base_beta + discount*(n-events)`, and
`ess_total = base_alpha + base_beta + discount*n` exactly. -/
theorem power_prior_ess_exact (events n discount base_alpha base_beta : ℝ)
    (h0 : 0 ≤ events) (h1 : events ≤ n) (h2 : 0 ≤ discount) (h3 : discount ≤ 1) :
    (reference_power_prior events n discount base_alpha base_beta).alpha =
        base_alpha + discount * events ∧
      (reference_power_prior events n discount base_alpha base_beta).beta =
        base_beta + discount * (n - events) ∧
      (reference_power_prior events n discount base_alpha base_beta).ess_total =
        base_alpha + base_beta + discount * n := by
  refine ⟨rfl, rfl, ?_⟩
  show base_alpha + discount * events + (base_beta + discount * (n - events)) = _
  ring

/-- Witness for C1 at the REBYOTA scenario `events=25, n=45, discount=0.5`,
base prior `Beta(1,1)`. -/
theorem power_prior_ess_exact_witness :
    (reference_power_prior 25 45 (1/2) 1 1).alpha = 1 + (1/2) * 25 ∧
      (reference_power_prior 25 45 (1/2) 1 1).beta = 1 + (1/2) * (45 - 25) ∧
      (reference_power_prior 25 45 (1/2) 1 1).ess_total = 1 + 1 + (1/2) * 45 :=
  power_prior_ess_exact 25 45 (1/2) 1 1 (by norm_num) (by norm_num) (by norm_num)
    (by norm_num)

/-- C3: both spending functions return exactly `alpha` at information
fraction `t = 1` (the terminal constraint `α*(1) = α`), for every valid
significance level; the look count `k` does not enter the formulas. -/
theorem spending_terminal_constraint (alpha : ℝ) (h0 : 0 < alpha) (h1 : alpha < 1) :
    reference_obrien_fleming_spending 1 alpha = alpha ∧
      reference_pocock_spending 1 alpha = alpha := by
  constructor <;> norm_num [reference_obrien_fleming_spending, reference_pocock_spending]

/-- Witness for C3 at `alpha = 0.025`. -/
theorem spending_terminal_constraint_witness :
    reference_obrien_fleming_spending 1 (1/40) = 1/40 ∧
      reference_pocock_spending 1 (1/40) = 1/40 :=
  spending_terminal_constraint (1/40) (by norm_num) (by norm_num)

/-- C4: the Schoenfeld survival-events computation fails with
`UndefinedEffect` at `hazard_ratio = 1` and never returns a numeric value
there, for every `alpha`, `power` and allocation ratio. -/
theorem schoenfeld_hr_one_rejected (alpha power allocation_r : ℝ) :
    schoenfeld_survival_events 1 alpha power allocation_r =
        Except.error DesignError.undefinedEffect ∧
      ∀ y : ℝ, schoenfeld_survival_events 1 alpha power allocation_r ≠ Except.ok y := by
  refine ⟨?_, fun y => ?_⟩ <;> simp [schoenfeld_survival_events]

/-- C8: with a supplied seed, the Monte-Carlo sample-size search is
independent of the process entropy — two invocations with identical
parameters and the same seed return identical results, draws being keyed by
`(seed, n, simulation index)` only. -/
theorem mc_search_deterministic (dec_rule : ℕ → ℕ → Bool)
    (null_rate alternative_rate target_type1 target_power : ℚ)
    (n_min n_max n_step n_simulations : ℕ) (seed entropy1 entropy2 : ℕ) :
    mc_sample_size_search dec_rule null_rate alternative_rate target_type1
        target_power n_min n_max n_step n_simulations (some seed) entropy1 =
      mc_sample_size_search dec_rule null_rate alternative_rate target_type1
        target_power n_min n_max n_step n_simulations (some seed) entropy2 := rfl

/-- C9: the bounds fragment of the schema checker reports a violation for a
declared bound `(lo, hi, strict_lower)` exactly when `strict_lower` holds
and `v ≤ lo`, or `strict_lower` fails and `v < lo`, or `hi` is declared and
`v > hi`; a value strictly inside the bounds yields no violation. -/
theorem check_bound_reports_iff (key : String) (v l : ℚ) (hi : Option ℚ)
    (strict : Bool) :
    (check_bound key v (some l) hi strict ≠ [] ↔
      (strict = true ∧ v ≤ l) ∨ (strict = false ∧ v < l) ∨
        ∃ b, hi = some b ∧ b < v) ∧
    (l < v → (∀ b, hi = some b → v < b) →
      check_bound key v (some l) hi strict = []) := by
  cases hi <;> cases strict <;>
    constructor <;>
    · simp only [check_bound, List.append_nil, List.nil_append, ne_eq]
      split_ifs <;> simp_all <;> try tauto
      all_goals intros
      all_goals first
        | linarith
        | (constructor <;> intros <;> linarith)

/-- Witness for C9: value `1/2` against bound `(0, 1, strict)` for the
field name `"power"`. -/
theorem check_bound_reports_iff_witness :
    (check_bound "power" (1/2) (some 0) (some 1) true ≠ [] ↔
      (true = true ∧ (1/2:ℚ) ≤ 0) ∨ (true = false ∧ (1/2:ℚ) < 0) ∨
        ∃ b, (some (1:ℚ)) = some b ∧ b < 1/2) ∧
    ((0:ℚ) < 1/2 → (∀ b, (some (1:ℚ)) = some b → 1/2 < b) →
      check_bound "power" (1/2) (some 0) (some 1) true = []) :=
  check_bound_reports_iff "power" (1/2) 0 (some 1) true

/-- C10: the Clopper-Pearson convenience wrappers clamp the rounded count
into `[0, n_sims]` before calling `binomial_ci`, and — provided the external
Beta quantile collaborator returns values in `[0,1]`, as `scipy.stats.beta.ppf`
does — the returned bounds always lie in `[0,1]`. -/
theorem mc_rate_wrappers_clamped (betaPpf : ℚ → ℤ → ℤ → ℚ)
    (observed_rate : ℚ) (n_sims : ℕ) (confidence : ℚ)
    (hppf : ∀ q a b, 0 ≤ betaPpf q a b ∧ betaPpf q a b ≤ 1) :
    (0 ≤ clamped_count observed_rate n_sims ∧
      clamped_count observed_rate n_sims ≤ n_sims) ∧
    (0 ≤ mc_rate_upper_bound betaPpf observed_rate n_sims confidence ∧
      mc_rate_upper_bound betaPpf observed_rate n_sims confidence ≤ 1) ∧
    (0 ≤ mc_rate_lower_bound betaPpf observed_rate n_sims confidence ∧
      mc_rate_lower_bound betaPpf observed_rate n_sims confidence ≤ 1) := by
  refine ⟨⟨le_max_left 0 _, ?_⟩, ?_, ?_⟩
  · exact max_le (Int.ofNat_nonneg n_sims) (min_le_right _ _)
  · rw [mc_rate_upper_bound, binomial_ci]
    dsimp only
    split_ifs
    · norm_num
    · exact ⟨(hppf _ _ _).1, (hppf _ _ _).2⟩
  · rw [mc_rate_lower_bound, binomial_ci]
    dsimp only
    split_ifs
    · norm_num
    · exact ⟨(hppf _ _ _).1, (hppf _ _ _).2⟩

/-- Witness for C10 with a constant stand-in for the Beta quantile function
and an out-of-range observed rate `3/2` over `100` simulations. -/
theorem mc_rate_wrappers_clamped_witness :
    (0 ≤ clamped_count (3/2) 100 ∧ clamped_count (3/2) 100 ≤ 100) ∧
    (0 ≤ mc_rate_upper_bound (fun _ _ _ => 1/2) (3/2) 100 (99/100) ∧
      mc_rate_upper_bound (fun _ _ _ => 1/2) (3/2) 100 (99/100) ≤ 1) ∧
    (0 ≤ mc_rate_lower_bound (fun _ _ _ => 1/2) (3/2) 100 (99/100) ∧
      mc_rate_lower_bound (fun _ _ _ => 1/2) (3/2) 100 (99/100) ≤ 1) :=
  mc_rate_wrappers_clamped (fun _ _ _ => 1/2) (3/2) 100 (99/100)
    (fun _ _ _ => by norm_num)

/-- C5: two identical studies `{(e,n),(e,n)}` give Cochran's `Q = 0` and
`I² = 0` exactly, including the boundary cases `e = 0` and `e = n` where the
`0.25/n` fallback variance applies. -/
theorem heterogeneity_identical_studies (e n : ℕ) (hn : 0 < n) (he : e ≤ n) :
    (reference_heterogeneity [⟨e, n⟩, ⟨e, n⟩]).Q = 0 ∧
      (reference_heterogeneity [⟨e, n⟩, ⟨e, n⟩]).i_squared = 0 := by
  have hnq : (0:ℚ) < (n:ℚ) := by exact_mod_cast hn
  unfold reference_heterogeneity
  simp only [List.map_cons, List.map_nil, List.zip_cons_cons, List.zip_nil_right,
    List.sum_cons, List.sum_nil, List.length_cons, List.length_nil]
  set r : ℚ := (e:ℚ) / (n:ℚ) with hr
  set v : ℚ := (if 0 < r ∧ r < 1 then r * (1 - r) / (n:ℚ) else 1 / 4 / (n:ℚ)) with hv
  have hvpos : 0 < v := by
    rw [hv]; split_ifs with h
    · exact div_pos (mul_pos h.1 (by linarith [h.2])) hnq
    · positivity
  rw [if_pos hvpos]
  have hwpos : 0 < 1 / v := by positivity
  rw [if_pos (show (0:ℚ) < 1 / v + (1 / v + 0) by linarith)]
  have hpooled : (1 / v * r + (1 / v * r + 0)) / (1 / v + (1 / v + 0)) = r := by
    field_simp
    ring
  rw [hpooled]
  constructor
  · simp
  · rw [if_neg (by simp)]

/-- Witness for C5: identical pairs at the `e = 0` fallback boundary and at
an interior rate `20/50`. -/
theorem heterogeneity_identical_studies_witness :
    ((reference_heterogeneity [⟨0, 50⟩, ⟨0, 50⟩]).Q = 0 ∧
      (reference_heterogeneity [⟨0, 50⟩, ⟨0, 50⟩]).i_squared = 0) ∧
    ((reference_heterogeneity [⟨20, 50⟩, ⟨20, 50⟩]).Q = 0 ∧
      (reference_heterogeneity [⟨20, 50⟩, ⟨20, 50⟩]).i_squared = 0) :=
  ⟨heterogeneity_identical_studies 0 50 (by norm_num) (by norm_num),
   heterogeneity_identical_studies 20 50 (by norm_num) (by norm_num)⟩

/-- C7: at any look, if the futility spending value is strictly below the
efficacy spending value (both in `(0,1)`), the Zhou-Ji futility boundary is
strictly below the efficacy boundary. -/
theorem futility_boundary_lt_efficacy (mu nu2 sigma2 n gamma_f gamma_e : ℝ)
    (hnu : 0 < nu2) (hs : 0 < sigma2) (hn : 0 < n)
    (hf0 : 0 < gamma_f) (hfe : gamma_f < gamma_e) (he1 : gamma_e < 1) :
    zhou_ji_boundary mu nu2 sigma2 n gamma_f <
      zhou_ji_boundary mu nu2 sigma2 n gamma_e := by
  unfold zhou_ji_boundary
  have hS : 0 < Real.sqrt (1 + sigma2 / (n * nu2)) :=
    Real.sqrt_pos.2 (by positivity)
  have hppf := stdNormalPpf_lt_ppf hf0 hfe he1
  have hmul := mul_lt_mul_of_pos_right hppf hS
  linarith

/-- Witness for C7 at `mu=0, nu²=1, sigma²=1, n=30`, spending `0.10 < 0.975`. -/
theorem futility_boundary_lt_efficacy_witness :
    zhou_ji_boundary 0 1 1 30 (1/10) < zhou_ji_boundary 0 1 1 30 (39/40) :=
  futility_boundary_lt_efficacy 0 1 1 30 (1/10) (39/40) (by norm_num) (by norm_num)
    (by norm_num) (by norm_num) (by norm_num) (by norm_num)

/-- C6: as the prior variance tends to infinity the Zhou-Ji boundary tends
to `Φ⁻¹(gamma)`, and (for `n_k ≥ 25`, as the spec instantiates it) the
4-decimal-rounded reference boundary is within `0.001` of `Φ⁻¹(gamma)` for
all sufficiently large prior variance. -/
theorem zhou_ji_vague_prior_limit (mu sigma2 n gamma : ℝ)
    (hs : 0 < sigma2) (hn : 0 < n) (hg0 : 0 < gamma) (hg1 : gamma < 1) :
    Tendsto (fun nu2 => zhou_ji_boundary mu nu2 sigma2 n gamma) atTop
        (𝓝 (stdNormalPpf gamma)) ∧
      (25 ≤ n → ∀ᶠ nu2 in atTop,
        |reference_boundary_continuous mu nu2 sigma2 n gamma - stdNormalPpf gamma|
          < 1 / 1000) := by
  have hlim : Tendsto (fun nu2 => zhou_ji_boundary mu nu2 sigma2 n gamma) atTop
      (𝓝 (stdNormalPpf gamma)) := by
    have hfrac : Tendsto (fun nu2 : ℝ => sigma2 / (n * nu2)) atTop (𝓝 0) :=
      Tendsto.div_atTop tendsto_const_nhds (Tendsto.const_mul_atTop hn tendsto_id)
    have harg : Tendsto (fun nu2 : ℝ => 1 + sigma2 / (n * nu2)) atTop (𝓝 1) := by
      have := tendsto_const_nhds (x := (1:ℝ)) (f := atTop (α := ℝ)) |>.add hfrac
      simpa using this
    have hsqrt : Tendsto (fun nu2 : ℝ => Real.sqrt (1 + sigma2 / (n * nu2))) atTop
        (𝓝 1) := by
      have hcomp := (Real.continuous_sqrt.continuousAt (x := (1:ℝ))).tendsto.comp harg
      rwa [Real.sqrt_one] at hcomp
    have hterm1 : Tendsto
        (fun nu2 : ℝ => stdNormalPpf gamma * Real.sqrt (1 + sigma2 / (n * nu2)))
        atTop (𝓝 (stdNormalPpf gamma)) := by
      have := tendsto_const_nhds (x := stdNormalPpf gamma)
        (f := atTop (α := ℝ)) |>.mul hsqrt
      simpa using this
    have hterm2 : Tendsto
        (fun nu2 : ℝ => mu * Real.sqrt sigma2 / (Real.sqrt n * nu2)) atTop (𝓝 0) :=
      Tendsto.div_atTop tendsto_const_nhds
        (Tendsto.const_mul_atTop (Real.sqrt_pos.2 hn) tendsto_id)
    have := hterm1.sub hterm2
    rw [sub_zero] at this
    exact this
  refine ⟨hlim, fun _ => ?_⟩
  have hev := (Metric.tendsto_nhds.mp hlim) (1 / 2000) (by norm_num)
  filter_upwards [hev] with nu2 hnu2
  rw [Real.dist_eq] at hnu2
  set c := zhou_ji_boundary mu nu2 sigma2 n gamma with hc
  have hrd := round_half_even_abs_sub (c * 10 ^ 4)
  have hrefc : |reference_boundary_continuous mu nu2 sigma2 n gamma - c| ≤ 1 / 20000 := by
    rw [reference_boundary_continuous, ← hc]
    have hrw : (round_half_even (c * 10 ^ 4) : ℝ) / 10 ^ 4 - c =
        ((round_half_even (c * 10 ^ 4) : ℝ) - c * 10 ^ 4) / 10 ^ 4 := by ring
    rw [hrw, abs_div, abs_of_pos (by norm_num : (0:ℝ) < 10 ^ 4)]
    rw [div_le_iff (by norm_num : (0:ℝ) < 10 ^ 4)]
    calc |(round_half_even (c * 10 ^ 4) : ℝ) - c * 10 ^ 4| ≤ 1 / 2 := hrd
      _ = 1 / 20000 * 10 ^ 4 := by norm_num
  calc |reference_boundary_continuous mu nu2 sigma2 n gamma - stdNormalPpf gamma|
      ≤ |reference_boundary_continuous mu nu2 sigma2 n gamma - c| +
          |c - stdNormalPpf gamma| := abs_sub_le _ _ _
    _ < 1 / 20000 + 1 / 2000 := by
        apply add_lt_add_of_le_of_lt hrefc hnu2
    _ < 1 / 1000 := by norm_num

/-- Witness for C6 at `mu=0, sigma²=1, n=25, gamma=0.975`-style inputs
(`gamma = 1/2` keeps the hypotheses rational). -/
theorem zhou_ji_vague_prior_limit_witness :
    Tendsto (fun nu2 => zhou_ji_boundary 0 nu2 1 25 (1/2)) atTop
        (𝓝 (stdNormalPpf (1/2))) ∧
      (25 ≤ (25:ℝ) → ∀ᶠ nu2 in atTop,
        |reference_boundary_continuous 0 nu2 1 25 (1/2) - stdNormalPpf (1/2)|
          < 1 / 1000) :=
  zhou_ji_vague_prior_limit 0 1 25 (1/2) (by norm_num) (by norm_num) (by norm_num)
    (by norm_num)

lemma one_lt_exp_one : (1:ℝ) < Real.exp 1 := by
  have := Real.add_one_lt_exp (x := 1) (by norm_num)
  linarith

lemma pocock_spending_monotoneOn {alpha : ℝ} (h0 : 0 < alpha) (h1 : alpha < 1) :
    MonotoneOn (fun t => reference_pocock_spending t alpha) (Icc (0:ℝ) 1) := by
  have he := one_lt_exp_one
  intro t1 ht1 t2 ht2 h12
  simp only [reference_pocock_spending]
  rcases le_or_lt t1 0 with ht10 | ht10
  · rw [if_pos ht10]
    rcases le_or_lt t2 0 with ht20 | ht20
    · rw [if_pos ht20]
    · rw [if_neg (not_le.2 ht20)]
      rcases le_or_lt 1 t2 with ht21 | ht21
      · rw [if_pos ht21]; exact h0.le
      · rw [if_neg (not_le.2 ht21)]
        have harg : (1:ℝ) ≤ 1 + (Real.exp 1 - 1) * t2 := by nlinarith
        exact mul_nonneg h0.le (Real.log_nonneg harg)
  · rw [if_neg (not_le.2 ht10), if_neg (not_le.2 (lt_of_lt_of_le ht10 h12))]
    rcases le_or_lt 1 t1 with ht11 | ht11
    · rw [if_pos ht11, if_pos (le_trans ht11 h12)]
    · rw [if_neg (not_le.2 ht11)]
      rcases le_or_lt 1 t2 with ht21 | ht21
      · rw [if_pos ht21]
        have harg2 : 1 + (Real.exp 1 - 1) * t1 ≤ Real.exp 1 := by nlinarith
        have hlog : Real.log (1 + (Real.exp 1 - 1) * t1) ≤ 1 := by
          have := Real.log_le_log (by nlinarith) harg2
          rwa [Real.log_exp] at this
        calc alpha * Real.log (1 + (Real.exp 1 - 1) * t1) ≤ alpha * 1 :=
              mul_le_mul_of_nonneg_left hlog h0.le
          _ = alpha := mul_one alpha
      · rw [if_neg (not_le.2 ht21)]
        apply mul_le_mul_of_nonneg_left _ h0.le
        apply Real.log_le_log (by nlinarith)
        nlinarith

lemma obf_spending_monotoneOn {alpha : ℝ} (h0 : 0 < alpha) (hhalf : alpha ≤ 1 / 2) :
    MonotoneOn (fun t => reference_obrien_fleming_spending t alpha) (Ico (0:ℝ) 1) := by
  have hz : 0 ≤ stdNormalPpf (1 - alpha) :=
    stdNormalPpf_nonneg (by linarith) (by linarith)
  intro t1 ht1 t2 ht2 h12
  simp only [reference_obrien_fleming_spending]
  rcases le_or_lt t1 0 with ht10 | ht10
  · rw [if_pos ht10]
    rcases le_or_lt t2 0 with ht20 | ht20
    · rw [if_pos ht20]
    · rw [if_neg (not_le.2 ht20), if_neg (not_le.2 ht2.2)]
      have := stdNormalCdf_le_one (stdNormalPpf (1 - alpha) / Real.sqrt t2)
      linarith
  · rw [if_neg (not_le.2 ht10), if_neg (not_le.2 (lt_of_lt_of_le ht10 h12)),
      if_neg (not_le.2 ht1.2), if_neg (not_le.2 ht2.2)]
    have hs1 : 0 < Real.sqrt t1 := Real.sqrt_pos.2 ht10
    have hs2 : 0 < Real.sqrt t2 := Real.sqrt_pos.2 (lt_of_lt_of_le ht10 h12)
    have hsle : Real.sqrt t1 ≤ Real.sqrt t2 := Real.sqrt_le_sqrt h12
    have hdiv : stdNormalPpf (1 - alpha) / Real.sqrt t2 ≤
        stdNormalPpf (1 - alpha) / Real.sqrt t1 := by
      gcongr
    have := stdNormalCdf_mono hdiv
    linarith

/-- C2 (amended): the Pocock cumulative spending is non-decreasing on the
whole interval `[0,1]` for every `alpha ∈ (0,1)`; the O'Brien-Fleming
cumulative spending is non-decreasing only short of the terminal clamp — on
`[0,1)` for every `alpha ∈ (0, 1/2]` — because `α*(t) → 2α ≠ α` as `t → 1⁻`
while `α*(1) = α`. -/
theorem spending_monotonicity_amended :
    (∀ alpha : ℝ, 0 < alpha → alpha < 1 →
      MonotoneOn (fun t => reference_pocock_spending t alpha) (Icc (0:ℝ) 1)) ∧
    (∀ alpha : ℝ, 0 < alpha → alpha ≤ 1 / 2 →
      MonotoneOn (fun t => reference_obrien_fleming_spending t alpha) (Ico (0:ℝ) 1)) :=
  ⟨fun _ h0 h1 => pocock_spending_monotoneOn h0 h1,
   fun _ h0 hhalf => obf_spending_monotoneOn h0 hhalf⟩

/-- Witness for C2 (amended) at `alpha = 0.025`. -/
theorem spending_monotonicity_amended_witness :
    MonotoneOn (fun t => reference_pocock_spending t (1/40)) (Icc (0:ℝ) 1) ∧
      MonotoneOn (fun t => reference_obrien_fleming_spending t (1/40)) (Ico (0:ℝ) 1) :=
  ⟨spending_monotonicity_amended.1 (1/40) (by norm_num) (by norm_num),
   spending_monotonicity_amended.2 (1/40) (by norm_num) (by norm_num)⟩

/-- Counterexample for C2 as stated: O'Brien-Fleming spending is not
non-decreasing over all of `[0,1]` for every valid `alpha`.  At `alpha=1/2`
the spending drops from `1` at `t=1/2` to `1/2` at `t=1`, and at `alpha=3/4`
it already decreases inside `(0,1)`, from `t=1/4` to `t=1/2`. -/
theorem obf_spending_not_monotone :
    ((0:ℝ) < 1/2 ∧ (1/2:ℝ) < 1 ∧
      reference_obrien_fleming_spending 1 (1/2) <
        reference_obrien_fleming_spending (1/2) (1/2)) ∧
    ((0:ℝ) < 3/4 ∧ (3/4:ℝ) < 1 ∧
      reference_obrien_fleming_spending (1/2) (3/4) <
        reference_obrien_fleming_spending (1/4) (3/4)) := by
  refine ⟨⟨by norm_num, by norm_num, ?_⟩, ⟨by norm_num, by norm_num, ?_⟩⟩
  · rw [reference_obrien_fleming_spending, if_neg (by norm_num), if_pos (by norm_num),
      reference_obrien_fleming_spending, if_neg (by norm_num), if_neg (by norm_num)]
    have h12 : (1:ℝ) - 1/2 = 1/2 := by norm_num
    rw [h12, stdNormalPpf_half, zero_div, stdNormalCdf_zero]
    norm_num
  · rw [reference_obrien_fleming_spending, if_neg (by norm_num), if_neg (by norm_num),
      reference_obrien_fleming_spending, if_neg (by norm_num), if_neg (by norm_num)]
    set z := stdNormalPpf (1 - 3/4) with hzdef
    have hz : z < 0 := by
      rw [hzdef]
      exact stdNormalPpf_neg (by norm_num) (by norm_num)
    have hs14 : Real.sqrt (1/4) = 1/2 := by
      rw [show (1/4:ℝ) = (1/2)^2 by norm_num, Real.sqrt_sq (by norm_num)]
    have hs12pos : 0 < Real.sqrt (1/2) := Real.sqrt_pos.2 (by norm_num)
    have hs1214 : Real.sqrt (1/4) < Real.sqrt (1/2) :=
      Real.sqrt_lt_sqrt (by norm_num) (by norm_num)
    have hinv : 1 / Real.sqrt (1/2) < 1 / Real.sqrt (1/4) :=
      one_div_lt_one_div_of_lt (by rw [hs14]; norm_num) hs1214
    have hmul : z * (1 / Real.sqrt (1/4)) < z * (1 / Real.sqrt (1/2)) :=
      mul_lt_mul_of_neg_left hinv hz
    have hdivs : z / Real.sqrt (1/4) < z / Real.sqrt (1/2) := by
      have e1 : z / Real.sqrt (1/4) = z * (1 / Real.sqrt (1/4)) := by ring
      have e2 : z / Real.sqrt (1/2) = z * (1 / Real.sqrt (1/2)) := by ring
      rw [e1, e2]
      exact hmul
    have := stdNormalCdf_strictMono hdivs
    linarith
